import Mathlib

/-!
Verification of the lightarti-rest flat-file directory provider and
cache-freshness controller against its specification.

The Rust sources are shallowly embedded: pure functions become Lean
functions, filesystem state becomes an explicit record of file contents
and modification times, and the stateful directory-load procedure
becomes a function from an explicit state to a result, an event list,
and a new state.  Randomness (the churn subsampling) is modelled by
passing the drawn sample explicitly, constrained by the properties the
random draw guarantees (a without-replacement draw of the computed
size).
-/

deriving instance DecidableEq for Except

namespace Lightarti

/-! ## Basic data model

A relay RSA identity is a 20-byte digest; we model bytes as naturals
below 256 (the byte bound is irrelevant to the claims, the length is
not).
-/

/-- A relay identity digest: the byte list produced by hex-decoding.
`RsaIdentity::from_bytes` accepts it only at length 20. -/
abbrev RsaId := List Nat

/-- The subset of `tor_dirmgr::Error` variants produced by the embedded
code paths. -/
inductive DirError where
  /-- `Error::CacheCorruption(msg)` -/
  | cacheCorruption (msg : String)
  /-- `Error::UntimelyObject(..)` -/
  | untimelyObject
  /-- `Error::UnrecognizedAuthorities` -/
  | unrecognizedAuthorities
  /-- `Error::BadHexInCache(..)` (payload elided) -/
  | badHexInCache
  /-- `Error::DirectoryNotPresent` -/
  | directoryNotPresent
  /-- certificate signature-check failure propagated by the `?` in
  `load_certificate` (exact variant irrelevant to the claims) -/
  | certSignature
  deriving DecidableEq, Repr

/-- `tor_netdir::DirEvent` values emitted by the provider. -/
inductive DirEvent where
  | newConsensus
  | newDescriptors
  deriving DecidableEq, Repr

/-! ## Churn parsing (`parse_churn`, src/src/flatfiledirmgr.rs:276-289)

The Rust code is

    text.lines()
        .filter(|line| !line.is_empty())
        .map(|line| {
            let bytes = hex::decode(line).map_err(Error::BadHexInCache)?;
            RsaIdentity::from_bytes(&bytes)
                .ok_or(Error::CacheCorruption("invalid RSA identity"))
        })
        .collect::<Result<_>>()

We embed `str::lines` (split on newline, strip one trailing carriage
return per line, no empty trailing line), `hex::decode` (strict
hex-decoding, failing on odd length or any non-hex character), and
`RsaIdentity::from_bytes` (succeeds exactly on length 20).
-/

/-- Value of a single hexadecimal digit, `none` on a non-hex character
(`hex::decode` accepts both cases). -/
def hexDigit (c : Char) : Option Nat :=
  if '0' ≤ c ∧ c ≤ '9' then some (c.toNat - 48)
  else if 'a' ≤ c ∧ c ≤ 'f' then some (c.toNat - 87)
  else if 'A' ≤ c ∧ c ≤ 'F' then some (c.toNat - 55)
  else none

/-- `hex::decode` on a character list: pairs of hex digits to bytes;
fails on odd length or a non-hex character. -/
def hexDecodeChars : List Char → Option (List Nat)
  | [] => some []
  | [_] => none
  | a :: b :: rest => do
      let hi ← hexDigit a
      let lo ← hexDigit b
      let tail ← hexDecodeChars rest
      pure ((16 * hi + lo) :: tail)

/-- Split a character sequence at newline characters; the result always
has one more segment than there are newlines. -/
def splitNl : List Char → List (List Char)
  | [] => [[]]
  | c :: rest =>
      if c = '\n' then [] :: splitNl rest
      else match splitNl rest with
        | [] => [[c]]
        | seg :: segs => (c :: seg) :: segs

/-- Strip one trailing carriage return, as `str::lines` does per line. -/
def stripCR (cs : List Char) : List Char :=
  if cs.getLast? = some '\r' then cs.dropLast else cs

/-- Rust `str::lines`: split on newline, drop the empty segment a
trailing newline produces, strip one trailing carriage return from each
line. -/
def rustLines (s : String) : List (List Char) :=
  let segs := splitNl s.data
  let segs := match segs.getLast? with
    | some [] => segs.dropLast
    | _ => segs
  segs.map stripCR

/-- One line of `parse_churn`: `hex::decode` then
`RsaIdentity::from_bytes` (length-20 check). -/
def parseChurnLine (line : List Char) : Except DirError RsaId :=
  match hexDecodeChars line with
  | none => .error .badHexInCache
  | some bytes =>
      if bytes.length = 20 then .ok bytes
      else .error (.cacheCorruption "invalid RSA identity")

/-- `parse_churn` (src/src/flatfiledirmgr.rs:276-289). -/
def parseChurn (text : String) : Except DirError (List RsaId) :=
  ((rustLines text).filter (fun l => l ≠ [])).mapM parseChurnLine

/-- The non-empty lines `parse_churn` actually decodes. -/
def churnLines (text : String) : List (List Char) :=
  (rustLines text).filter (fun l => l ≠ [])

/-- The byte list a well-formed churn line decodes to. -/
def decodedBytes (l : List Char) : RsaId :=
  (hexDecodeChars l).getD []

/-- A churn line is well formed when it hex-decodes to exactly 20
bytes. -/
def WellFormedChurnLine (l : List Char) : Prop :=
  ∃ bs, hexDecodeChars l = some bs ∧ bs.length = 20

instance : DecidablePred WellFormedChurnLine := fun l =>
  decidable_of_iff ((hexDecodeChars l).map List.length = some 20)
    (by cases hd : hexDecodeChars l <;> simp [hd, WellFormedChurnLine])

theorem parseChurn_def (text : String) :
    parseChurn text = (churnLines text).mapM parseChurnLine := rfl

theorem parseChurnLine_wf {l : List Char} (h : WellFormedChurnLine l) :
    parseChurnLine l = .ok (decodedBytes l) := by
  obtain ⟨bs, hbs, hlen⟩ := h
  simp [parseChurnLine, hbs, hlen, decodedBytes]

theorem parseChurnLine_error {l : List Char} {e : DirError}
    (h : parseChurnLine l = .error e) :
    e = .badHexInCache ∨ e = .cacheCorruption "invalid RSA identity" := by
  unfold parseChurnLine at h
  cases hd : hexDecodeChars l with
  | none => rw [hd] at h; exact Or.inl (Except.error.inj h).symm
  | some bs =>
      rw [hd] at h
      by_cases hlen : bs.length = 20
      · simp [hlen] at h
      · simp only [hlen, if_false] at h
        exact Or.inr (Except.error.inj h).symm

theorem churnMapM_ok (ls : List (List Char))
    (h : ∀ l ∈ ls, WellFormedChurnLine l) :
    ls.mapM parseChurnLine = .ok (ls.map decodedBytes) := by
  induction ls with
  | nil => rfl
  | cons a t ih =>
      rw [List.mapM_cons, parseChurnLine_wf (h a (List.mem_cons_self a t)),
        ih (fun l hl => h l (List.mem_cons_of_mem a hl))]
      rfl

theorem churnMapM_ok_inv (ls : List (List Char)) (ids : List RsaId)
    (h : ls.mapM parseChurnLine = .ok ids) :
    (∀ l ∈ ls, WellFormedChurnLine l) ∧ ids = ls.map decodedBytes := by
  induction ls generalizing ids with
  | nil => simp_all [List.mapM_nil]; exact (Except.ok.inj h).symm
  | cons a t ih =>
      rw [List.mapM_cons] at h
      cases ha : parseChurnLine a with
      | error e => rw [ha] at h; exact absurd h (by simp [Bind.bind, Except.bind])
      | ok b =>
          rw [ha] at h
          cases ht : t.mapM parseChurnLine with
          | error e =>
              rw [show ((do
                    let x ← Except.ok b
                    let xs ← List.mapM parseChurnLine t
                    pure (x :: xs) : Except DirError (List RsaId)))
                  = (t.mapM parseChurnLine).map (b :: ·) from rfl, ht] at h
              exact absurd h (by simp [Except.map])
          | ok bs =>
              obtain ⟨hwf, hbs⟩ := ih bs ht
              have hb : WellFormedChurnLine a ∧ b = decodedBytes a := by
                unfold parseChurnLine at ha
                cases hd : hexDecodeChars a with
                | none => rw [hd] at ha; cases ha
                | some v =>
                    rw [hd] at ha
                    by_cases hlen : v.length = 20
                    · refine ⟨⟨v, hd, hlen⟩, ?_⟩
                      simp only [hlen, if_true] at ha
                      simp [decodedBytes, hd, (Except.ok.inj ha).symm]
                    · simp only [hlen, if_false] at ha; cases ha
              refine ⟨fun l hl => ?_, ?_⟩
              · rcases List.mem_cons.1 hl with rfl | hl
                · exact hb.1
                · exact hwf l hl
              · rw [show ((do
                      let x ← Except.ok b
                      let xs ← List.mapM parseChurnLine t
                      pure (x :: xs) : Except DirError (List RsaId)))
                    = (t.mapM parseChurnLine).map (b :: ·) from rfl, ht] at h
                simp only [Except.map] at h
                rw [← (Except.ok.inj h), hb.2, hbs, List.map_cons]

theorem churnMapM_error (ls : List (List Char)) (e : DirError)
    (h : ls.mapM parseChurnLine = .error e) :
    e = .badHexInCache ∨ e = .cacheCorruption "invalid RSA identity" := by
  induction ls generalizing e with
  | nil => cases h
  | cons a t ih =>
      rw [List.mapM_cons] at h
      cases ha : parseChurnLine a with
      | error e2 =>
          rw [ha] at h
          have : e2 = e := by
            simpa [Bind.bind, Except.bind] using h
          exact this ▸ parseChurnLine_error ha
      | ok b =>
          rw [ha,
            show ((do
                let x ← Except.ok b
                let xs ← List.mapM parseChurnLine t
                pure (x :: xs) : Except DirError (List RsaId)))
              = (t.mapM parseChurnLine).map (b :: ·) from rfl] at h
          cases ht : t.mapM parseChurnLine with
          | error e3 =>
              rw [ht] at h
              simp only [Except.map] at h
              exact (Except.error.inj h) ▸ ih e3 ht
          | ok bs => rw [ht] at h; simp [Except.map] at h

/-- C7, counterexample: the claim says any malformed (non-hex) line
makes `parse_churn` fail with `CacheCorruption("invalid RSA identity")`,
but on the non-hex input "zz" the code fails with
`Error::BadHexInCache` instead (the `CacheCorruption` message is
reserved for hex lines of the wrong decoded length). -/
theorem parse_churn_nonhex_error_kind :
    parseChurn "zz" = .error .badHexInCache
      ∧ parseChurn "zz" ≠ .error (.cacheCorruption "invalid RSA identity") := by
  decide

/-- C7, amended: `parse_churn` splits its input on newlines, ignores
empty lines, and hex-decodes each remaining line into a 20-byte relay
identity.  If every non-empty line is well formed it returns the list
of decoded identities; a malformed line makes it fail, with
`BadHexInCache` when the first offending line is not valid hex and
`CacheCorruption("invalid RSA identity")` when it is hex decoding to
the wrong length (never any other error). -/
theorem parse_churn_characterization (text : String) :
    ((∀ l ∈ churnLines text, WellFormedChurnLine l) →
        parseChurn text = .ok ((churnLines text).map decodedBytes))
    ∧ (∀ ids, parseChurn text = .ok ids →
        (∀ l ∈ churnLines text, WellFormedChurnLine l)
          ∧ ids = (churnLines text).map decodedBytes)
    ∧ ((∃ l ∈ churnLines text, ¬ WellFormedChurnLine l) →
        ∃ e, parseChurn text = .error e)
    ∧ (∀ e, parseChurn text = .error e →
        e = .badHexInCache ∨ e = .cacheCorruption "invalid RSA identity") := by
  refine ⟨fun h => ?_, fun ids h => ?_, fun h => ?_, fun e h => ?_⟩
  · rw [parseChurn_def]; exact churnMapM_ok _ h
  · rw [parseChurn_def] at h; exact churnMapM_ok_inv _ _ h
  · cases hp : parseChurn text with
    | error e => exact ⟨e, rfl⟩
    | ok ids =>
        obtain ⟨l, hl, hwf⟩ := h
        rw [parseChurn_def] at hp
        exact absurd ((churnMapM_ok_inv _ _ hp).1 l hl) hwf
  · rw [parseChurn_def] at h; exact churnMapM_error _ _ h

/-- C7 witness: a two-line churn file with one well-formed identity and
one empty line decodes successfully. -/
theorem parse_churn_characterization_witness :
    parseChurn "0001020304050607080900010203040506070809\n"
        = .ok ((churnLines "0001020304050607080900010203040506070809\n").map
            decodedBytes)
      ∧ (churnLines "0001020304050607080900010203040506070809\n").map decodedBytes
        = [[0, 1, 2, 3, 4, 5, 6, 7, 8, 9, 0, 1, 2, 3, 4, 5, 6, 7, 8, 9]] :=
  ⟨(parse_churn_characterization _).1 (by decide), by decide⟩

/-! ## Calendar arithmetic (the `time` crate functions used by
`get_cache_state`)

`get_offset_date_time` turns a file's mtime into an `OffsetDateTime`;
the classification then only uses `monday_based_week()` and
`weekday()`.  We model a timestamp by its number of whole days since
the Unix epoch (1970-01-01, a Thursday); the sub-day part of an mtime
never influences the functions used.  The model covers timestamps from
the epoch on (years before 1970 cannot arise from `duration_since(UNIX_EPOCH)`,
which fails on pre-epoch times).
-/

/-- Gregorian leap year. -/
def isLeap (y : Nat) : Bool :=
  (y % 4 = 0 && y % 100 ≠ 0) || y % 400 = 0

/-- Number of days in year `y`. -/
def daysInYear (y : Nat) : Nat :=
  if isLeap y then 366 else 365

/-- Fuel-driven conversion of a day count into (year, 1-based ordinal
day); the fuel only needs to exceed the number of full years consumed. -/
def yearOrdGo : Nat → Nat → Nat → Nat × Nat
  | 0, y, d => (y, d + 1)
  | fuel + 1, y, d =>
      if d < daysInYear y then (y, d + 1)
      else yearOrdGo fuel (y + 1) (d - daysInYear y)

/-- Year and 1-based ordinal day of the day `days` after the epoch. -/
def yearOrd (days : Nat) : Nat × Nat :=
  yearOrdGo (days + 1) 1970 days

/-- `Weekday::number_days_from_monday` of the day `days` after the
epoch (Monday = 0, ..., Sunday = 6); the epoch is a Thursday (= 3).
Two timestamps have equal `weekday()` exactly when these numbers are
equal. -/
def ndfm (days : Nat) : Nat :=
  (days + 3) % 7

/-- `OffsetDateTime::monday_based_week` (via `Date::monday_based_week`):
the week number where week 1 begins on the year's first Monday; days
before that Monday are week 0. -/
def mondayBasedWeek (days : Nat) : Nat :=
  let yo := yearOrd days
  (yo.2 + 6 - ndfm days) / 7

/-- Days from the epoch to January 1st of year `1970 + k`. -/
def daysToYearGo : Nat → Nat
  | 0 => 0
  | k + 1 => daysToYearGo k + daysInYear (1970 + k)

/-- `number_days_from_monday` of January 1st of year `y` (for `y ≥ 1970`). -/
def jan1Ndfm (y : Nat) : Nat :=
  (daysToYearGo (y - 1970) + 3) % 7

/-- Number of ISO weeks in year `y`: 53 when January 1st is a Thursday,
or a Wednesday of a leap year; else 52. -/
def weeksInYear (y : Nat) : Nat :=
  if jan1Ndfm y = 3 ∨ (isLeap y ∧ jan1Ndfm y = 2) then 53 else 52

/-- `Date::iso_week`: the ISO-8601 week number (1-53) of the day `days`
after the epoch. -/
def isoWeek (days : Nat) : Nat :=
  let yo := yearOrd days
  let w := (yo.2 + 10 - (ndfm days + 1)) / 7
  if w = 0 then weeksInYear (yo.1 - 1)
  else if w = 53 ∧ weeksInYear yo.1 = 52 then 1
  else w

/-! ## The on-disk cache and `get_cache_state`
(src/src/client.rs:128-150, src/src/flatfiledirmgr.rs:84-103)

A cache directory is modelled by whether the directory itself exists
and, per file, its presence, content, and mtime.  `Path::exists` on a
file inside a missing directory is false.
-/

/-- A cache file: its text content and its mtime in whole days since
the epoch. -/
structure CacheFile where
  content : String
  mtimeDays : Nat
  deriving DecidableEq, Repr

/-- The files of the cache directory. -/
inductive CacheFileName where
  | authority
  | consensus
  | microdescriptors
  | certificate
  | churn
  deriving DecidableEq, Repr, Fintype

/-- On-disk state of the cache directory. -/
structure CacheDir where
  dirExists : Bool
  authority : Option CacheFile
  consensus : Option CacheFile
  microdescriptors : Option CacheFile
  certificate : Option CacheFile
  churn : Option CacheFile
  deriving DecidableEq, Repr

/-- The entry stored for a file name. -/
def CacheDir.file (fs : CacheDir) : CacheFileName → Option CacheFile
  | .authority => fs.authority
  | .consensus => fs.consensus
  | .microdescriptors => fs.microdescriptors
  | .certificate => fs.certificate
  | .churn => fs.churn

/-- `cache_path.join(name).exists()`. -/
def CacheDir.present (fs : CacheDir) (n : CacheFileName) : Bool :=
  fs.dirExists && (fs.file n).isSome

/-- The mtime `get_offset_date_time` would report for a present file. -/
def CacheDir.mtime (fs : CacheDir) (n : CacheFileName) : Nat :=
  ((fs.file n).map CacheFile.mtimeDays).getD 0

/-- `fs::read_to_string(cache_path.join(name))` as an optional value. -/
def CacheDir.read (fs : CacheDir) (n : CacheFileName) : Option String :=
  if fs.dirExists then (fs.file n).map CacheFile.content else none

/-- The four files `FlatFileDirMgr::check_directory` requires. -/
def requiredFiles : List CacheFileName :=
  [.consensus, .microdescriptors, .certificate, .churn]

/-- `FlatFileDirMgr::check_directory` (src/src/flatfiledirmgr.rs:84-103):
error when any of the four required files is missing. -/
def checkDirectory (fs : CacheDir) : Except DirError Unit :=
  if requiredFiles.all fs.present then .ok ()
  else .error (.cacheCorruption "required files missing in cache")

/-- `UpdateNeeded` (src/src/client.rs:34-39); `none` is `Fresh`,
`churn` is `ChurnStale`, `all` is `AllStale` in the spec's naming. -/
inductive UpdateNeeded where
  | none
  | churn
  | all
  deriving DecidableEq, Repr

/-- `Client::get_cache_state` (src/src/client.rs:128-150). -/
def getCacheState (fs : CacheDir) (now : Nat) : UpdateNeeded :=
  match checkDirectory fs with
  | .error _ => .all
  | .ok _ =>
      if mondayBasedWeek (fs.mtime .microdescriptors) ≠ mondayBasedWeek now then
        .all
      else if mondayBasedWeek (fs.mtime .churn) = mondayBasedWeek now
          ∧ ndfm (fs.mtime .churn) = ndfm now then
        .none
      else
        .churn

/-- The classification exactly as claim C2 states it (formalised from
the claim's words, for comparison against `getCacheState`): missing
directory, missing authority file, or any missing required file gives
`AllStale`; then ISO-week comparison of the microdescriptors mtime;
then ISO-week plus weekday comparison of the churn mtime. -/
def claimCacheState (fs : CacheDir) (now : Nat) : UpdateNeeded :=
  if ¬ fs.dirExists ∨ ¬ fs.present .authority
      ∨ ¬ (requiredFiles.all fs.present : Bool) then
    .all
  else if isoWeek (fs.mtime .microdescriptors) ≠ isoWeek now then
    .all
  else if isoWeek (fs.mtime .churn) = isoWeek now
      ∧ ndfm (fs.mtime .churn) = ndfm now then
    .none
  else
    .churn

/-- The amended classification: the authority file plays no role, and
the week numbers compared are the `monday_based_week` numbers (week 1
starts at the year's first Monday), not ISO weeks. -/
def amendedCacheState (fs : CacheDir) (now : Nat) : UpdateNeeded :=
  if ¬ (requiredFiles.all fs.present : Bool) then .all
  else if mondayBasedWeek (fs.mtime .microdescriptors) ≠ mondayBasedWeek now then
    .all
  else if mondayBasedWeek (fs.mtime .churn) = mondayBasedWeek now
      ∧ ndfm (fs.mtime .churn) = ndfm now then
    .none
  else
    .churn

/-- C2, counterexample: (i) with the authority file absent but the four
required files present and fresh (mtime = now = day 19358, i.e.
2023-01-01), the code classifies the cache `Fresh` while the claim
demands `AllStale`; (ii) with every file present, the microdescriptors
file from day 19357 (2022-12-31, a Saturday) and now = day 19358
(2023-01-01, the Sunday of the same ISO week 52 of 2022), the code
classifies `AllStale` (the `monday_based_week` numbers are 52 vs 0)
while the claim's ISO-week rule classifies `Fresh`. -/
theorem get_cache_state_counterexample :
    getCacheState
        ⟨true, Option.none, some ⟨"", 19358⟩, some ⟨"", 19358⟩,
          some ⟨"", 19358⟩, some ⟨"", 19358⟩⟩ 19358 = .none
    ∧ claimCacheState
        ⟨true, Option.none, some ⟨"", 19358⟩, some ⟨"", 19358⟩,
          some ⟨"", 19358⟩, some ⟨"", 19358⟩⟩ 19358 = .all
    ∧ getCacheState
        ⟨true, some ⟨"", 19358⟩, some ⟨"", 19358⟩, some ⟨"", 19357⟩,
          some ⟨"", 19358⟩, some ⟨"", 19358⟩⟩ 19358 = .all
    ∧ claimCacheState
        ⟨true, some ⟨"", 19358⟩, some ⟨"", 19358⟩, some ⟨"", 19357⟩,
          some ⟨"", 19358⟩, some ⟨"", 19358⟩⟩ 19358 = .none := by
  decide

/-- C2, amended: the cache-state classification is a pure function of
file presence and mtimes evaluated against UTC wall time `now`: it
returns `AllStale` when any of consensus, microdescriptors,
certificate, churn is absent (which covers a missing cache directory;
the authority file is not consulted); else `AllStale` when the
Monday-based week number of the microdescriptors file's mtime differs
from that of `now`; else `Fresh` when the churn file's mtime has the
same Monday-based week number and the same weekday as `now`; else
`ChurnStale`.  Purity: two states agreeing on file presence and on the
mtimes of present files classify identically. -/
theorem get_cache_state_spec (fs : CacheDir) (now : Nat) :
    getCacheState fs now = amendedCacheState fs now
    ∧ (∀ fs' : CacheDir,
        (∀ n, fs.present n = fs'.present n) →
        (∀ n, fs.present n = true → fs.mtime n = fs'.mtime n) →
        getCacheState fs now = getCacheState fs' now) := by
  constructor
  · by_cases h : requiredFiles.all fs.present = true
    · simp [getCacheState, amendedCacheState, checkDirectory, h]
    · simp [getCacheState, amendedCacheState, checkDirectory, h]
  · intro fs' hp hm
    have hall : requiredFiles.all fs.present = requiredFiles.all fs'.present := by
      simp only [requiredFiles, List.all_cons, List.all_nil, hp]
    by_cases h : requiredFiles.all fs.present = true
    · have h' : requiredFiles.all fs'.present = true := hall ▸ h
      have h4 := h
      simp only [requiredFiles, List.all_cons, List.all_nil, Bool.and_true,
        Bool.and_eq_true] at h4
      have hmic : fs.mtime .microdescriptors = fs'.mtime .microdescriptors :=
        hm _ h4.2.1
      have hch : fs.mtime .churn = fs'.mtime .churn := hm _ h4.2.2.2
      simp [getCacheState, checkDirectory, h, h', hmic, hch]
    · have h' : ¬ requiredFiles.all fs'.present = true := hall ▸ h
      simp [getCacheState, checkDirectory, h, h']

/-- C2 witness: instantiating the amended classification at a concrete
fresh cache state. -/
theorem get_cache_state_spec_witness :
    getCacheState
        ⟨true, some ⟨"", 19358⟩, some ⟨"", 19358⟩, some ⟨"", 19358⟩,
          some ⟨"", 19358⟩, some ⟨"", 19358⟩⟩ 19358
      = amendedCacheState
        ⟨true, some ⟨"", 19358⟩, some ⟨"", 19358⟩, some ⟨"", 19358⟩,
          some ⟨"", 19358⟩, some ⟨"", 19358⟩⟩ 19358
    ∧ getCacheState
        ⟨true, some ⟨"", 19358⟩, some ⟨"", 19358⟩, some ⟨"", 19358⟩,
          some ⟨"", 19358⟩, some ⟨"", 19358⟩⟩ 19358
      = getCacheState
        ⟨true, some ⟨"x", 19358⟩, some ⟨"x", 19358⟩, some ⟨"x", 19358⟩,
          some ⟨"x", 19358⟩, some ⟨"x", 19358⟩⟩ 19358 :=
  ⟨(get_cache_state_spec _ 19358).1,
    (get_cache_state_spec _ 19358).2 _ (by decide) (by decide)⟩

/-! ## Cache refresh (`Client::update_cache`, src/src/client.rs:88-114)

`update_cache` dispatches on the cache state and runs the download
operations; we record the operations in execution order and their
effect on the cache directory.  The unpacked archive contents are a
parameter (`unpacked`), as is the day of the fetch.
-/

/-- The two network refresh operations of `Client::update_cache`. -/
inductive RefreshAction where
  | downloadChurn
  | downloadFullCache
  deriving DecidableEq, Repr

/-- The operations `Client::update_cache` (src/src/client.rs:88-101)
runs for each cache state, in execution order: the `All` arm awaits
`download_churn_file` first and only then calls
`download_full_cache`. -/
def updateCacheActions : UpdateNeeded → List RefreshAction
  | .none => []
  | .churn => [.downloadChurn]
  | .all => [.downloadChurn, .downloadFullCache]

/-- `Client::update_cache` on a given cache state and wall time. -/
def updateCache (fs : CacheDir) (now : Nat) : List RefreshAction :=
  updateCacheActions (getCacheState fs now)

/-- Effect of one refresh operation on the cache directory:
`download_churn_file` writes the fetched bytes to `churn.txt` (mtime =
fetch day); `download_full_cache` unpacks the archive over the five
files, overwriting existing ones. -/
def applyRefreshAction (churnData : String) (fetchDay : Nat)
    (unpacked : CacheFileName → CacheFile) :
    RefreshAction → CacheDir → CacheDir
  | .downloadChurn, fs => { fs with churn := some ⟨churnData, fetchDay⟩ }
  | .downloadFullCache, fs =>
      { fs with
        authority := some (unpacked .authority)
        consensus := some (unpacked .consensus)
        microdescriptors := some (unpacked .microdescriptors)
        certificate := some (unpacked .certificate)
        churn := some (unpacked .churn) }

/-- Run a list of refresh operations left to right. -/
def applyRefreshActions (churnData : String) (fetchDay : Nat)
    (unpacked : CacheFileName → CacheFile) (acts : List RefreshAction)
    (fs : CacheDir) : CacheDir :=
  acts.foldl (fun s a => applyRefreshAction churnData fetchDay unpacked a s) fs

/-- C5, counterexample: for an `AllStale` cache (a concrete empty cache
directory at day 19358) the refresh runs `download_churn_file` first
and `download_full_cache` second — not the claimed archive-then-churn
order — and the final churn file is the archive's copy (mtime 5 here),
not the freshly fetched one (fetch day 7), so its mtime does not
reflect the fetch time. -/
theorem update_cache_order_counterexample :
    updateCache ⟨true, Option.none, Option.none, Option.none,
        Option.none, Option.none⟩ 19358
      = [RefreshAction.downloadChurn, RefreshAction.downloadFullCache]
    ∧ [RefreshAction.downloadChurn, RefreshAction.downloadFullCache]
      ≠ [RefreshAction.downloadFullCache, RefreshAction.downloadChurn]
    ∧ (applyRefreshActions "fresh" 7 (fun _ => ⟨"stale", 5⟩)
        (updateCache ⟨true, Option.none, Option.none, Option.none,
          Option.none, Option.none⟩ 19358)
        ⟨true, Option.none, Option.none, Option.none,
          Option.none, Option.none⟩).churn
      = some ⟨"stale", 5⟩ := by
  decide

/-- C5, amended: when the cache is classified `AllStale`, the refresh
first fetches the churn file and afterwards downloads and unpacks the
full directory archive into the cache directory (overwriting existing
files, including the just-fetched churn file), so after the refresh the
churn file is the archive's copy rather than the fresh fetch. -/
theorem update_cache_all_stale (fs : CacheDir) (now : Nat)
    (churnData : String) (fetchDay : Nat)
    (unpacked : CacheFileName → CacheFile)
    (h : getCacheState fs now = .all) :
    updateCache fs now
      = [RefreshAction.downloadChurn, RefreshAction.downloadFullCache]
    ∧ (applyRefreshActions churnData fetchDay unpacked
        (updateCache fs now) fs).churn = some (unpacked .churn) := by
  refine ⟨?_, ?_⟩ <;>
    simp [updateCache, h, updateCacheActions, applyRefreshActions,
      applyRefreshAction]

/-- C5 witness: the amended refresh sequence on a concrete empty cache
directory. -/
theorem update_cache_all_stale_witness :
    getCacheState ⟨true, Option.none, Option.none, Option.none,
        Option.none, Option.none⟩ 19358 = .all
    ∧ (updateCache ⟨true, Option.none, Option.none, Option.none,
          Option.none, Option.none⟩ 19358
        = [RefreshAction.downloadChurn, RefreshAction.downloadFullCache]
      ∧ (applyRefreshActions "fresh" 7 (fun _ => CacheFile.mk "stale" 5)
          (updateCache ⟨true, Option.none, Option.none, Option.none,
            Option.none, Option.none⟩ 19358)
          ⟨true, Option.none, Option.none, Option.none,
            Option.none, Option.none⟩).churn
        = some (CacheFile.mk "stale" 5)) :=
  ⟨by decide, update_cache_all_stale _ 19358 "fresh" 7 _ (by decide)⟩

/-! ## File-level trace of the churn download (claim C6)

`Client::download_churn_file` (src/src/client.rs:104-108) performs
`File::create(cache_path.join(CHURN_FILENAME))` — a truncating create —
followed by `write_all`; `Client::download_full_cache`
(src/src/client.rs:112-114) unpacks the downloaded archive directly
into the cache directory.  We record these as file-operation traces and
give them a small-step file-system semantics to examine what a failure
between two operations leaves behind.
-/

/-- A single file-system operation. -/
inductive FileOp where
  /-- `File::create`: create or truncate to empty -/
  | create (name : String)
  /-- `write_all` of the full payload -/
  | writeAll (name : String) (data : String)
  /-- atomic rename -/
  | rename (src dst : String)
  /-- unpack an archive into a directory -/
  | unpackInto (dir : String)
  deriving DecidableEq, Repr

/-- A flat file system: file name to content. -/
abbrev FileSys := List (String × String)

/-- Remove every entry for a file name. -/
def dropFile : FileSys → String → FileSys
  | [], _ => []
  | (k, v) :: t, n => if k = n then dropFile t n else (k, v) :: dropFile t n

/-- Write (or overwrite) one file. -/
def setFile (fsys : FileSys) (n : String) (v : String) : FileSys :=
  (n, v) :: dropFile fsys n

/-- Read one file. -/
def getFile : FileSys → String → Option String
  | [], _ => Option.none
  | (k, v) :: t, n => if n = k then some v else getFile t n

/-- Effect of one file operation (the unpack contents are irrelevant to
the churn-file trace and are left abstract). -/
def applyFileOp (fsys : FileSys) : FileOp → FileSys
  | .create n => setFile fsys n ""
  | .writeAll n d => setFile fsys n d
  | .rename s d =>
      match getFile fsys s with
      | some v => dropFile (setFile fsys d v) s
      | Option.none => fsys
  | .unpackInto _ => fsys

/-- Run a trace of file operations left to right. -/
def runFileOps (fsys : FileSys) (ops : List FileOp) : FileSys :=
  ops.foldl applyFileOp fsys

/-- `Client::download_churn_file`'s file-operation trace. -/
def downloadChurnFileOps (churnData : String) : List FileOp :=
  [.create "churn.txt", .writeAll "churn.txt" churnData]

/-- `Client::download_full_cache`'s file-operation trace: a single
direct unpack into the cache directory. -/
def downloadFullCacheOps : List FileOp :=
  [.unpackInto "cache"]

/-- Modelled from the spec: the write-temp-then-rename sequence §4.G
requires for the churn file ("writing to `churn` atomically
(write-temp-then-rename)"); no such code exists in the repository. -/
def atomicChurnWriteOps (churnData : String) : List FileOp :=
  [.create "churn.tmp", .writeAll "churn.tmp" churnData,
    .rename "churn.tmp" "churn.txt"]

theorem getFile_dropFile_ne (fsys : FileSys) {m n : String} (h : m ≠ n) :
    getFile (dropFile fsys n) m = getFile fsys m := by
  induction fsys with
  | nil => rfl
  | cons a t ih =>
      obtain ⟨k, v⟩ := a
      by_cases hk : k = n
      · subst hk
        simp [dropFile, getFile, h, ih]
      · simp only [dropFile, hk, if_false]
        by_cases hm : m = k <;> simp [getFile, hm, ih]

theorem getFile_setFile_self (fsys : FileSys) (n v : String) :
    getFile (setFile fsys n v) n = some v := by
  simp [setFile, getFile]

theorem getFile_setFile_ne (fsys : FileSys) {m n : String} (v : String)
    (h : m ≠ n) :
    getFile (setFile fsys n v) m = getFile fsys m := by
  simp [setFile, getFile, h, getFile_dropFile_ne fsys h]

/-- C6, counterexample: the churn refresh trace contains no rename at
all — `download_churn_file` creates `churn.txt` directly — and a
refresh that fails between the truncating `File::create` and the
`write_all` leaves `churn.txt` empty where it previously held "old";
the full-cache refresh likewise unpacks straight into the cache
directory with no staging step.  This refutes the claimed
write-temp-then-rename / staging-directory atomicity. -/
theorem refresh_not_atomic_counterexample :
    ((downloadChurnFileOps "new").all fun op =>
        match op with
        | FileOp.rename _ _ => false
        | _ => true) = true
    ∧ getFile (runFileOps [("churn.txt", "old")]
        ((downloadChurnFileOps "new").take 1)) "churn.txt" = some ""
    ∧ some "" ≠ some "old"
    ∧ downloadFullCacheOps = [FileOp.unpackInto "cache"] := by
  decide

/-- C6, amended: the ChurnStale refresh writes `churn.txt` directly —
a truncating `File::create` followed by `write_all`, no temporary file
and no rename — and the AllStale refresh unpacks the archive directly
into the cache directory with no staging directory.  A refresh that
fails between the create and the write leaves `churn.txt` empty, so the
previous contents are not preserved.  (The write-temp-then-rename
sequence the spec requires would leave `churn.txt` either untouched or
fully written at every intermediate point.) -/
theorem refresh_churn_write_direct (init : FileSys) (data : String) :
    downloadChurnFileOps data
      = [FileOp.create "churn.txt", FileOp.writeAll "churn.txt" data]
    ∧ getFile (runFileOps init (downloadChurnFileOps data)) "churn.txt"
      = some data
    ∧ getFile (runFileOps init ((downloadChurnFileOps data).take 1)) "churn.txt"
      = some ""
    ∧ downloadFullCacheOps = [FileOp.unpackInto "cache"]
    ∧ (∀ k, getFile (runFileOps init ((atomicChurnWriteOps data).take k))
          "churn.txt" = getFile init "churn.txt"
        ∨ getFile (runFileOps init ((atomicChurnWriteOps data).take k))
          "churn.txt" = some data) := by
  have hne : ("churn.txt" : String) ≠ "churn.tmp" := by decide
  refine ⟨rfl, ?_, ?_, rfl, ?_⟩
  · simp [downloadChurnFileOps, runFileOps, applyFileOp,
      getFile_setFile_self]
  · simp [downloadChurnFileOps, runFileOps, applyFileOp,
      getFile_setFile_self]
  · intro k
    match k with
    | 0 => exact Or.inl rfl
    | 1 =>
        exact Or.inl (by
          simp [atomicChurnWriteOps, runFileOps, applyFileOp,
            getFile_setFile_ne _ _ hne])
    | 2 =>
        exact Or.inl (by
          simp [atomicChurnWriteOps, runFileOps, applyFileOp,
            getFile_setFile_ne _ _ hne])
    | (j + 3) =>
        refine Or.inr ?_
        have htake : (atomicChurnWriteOps data).take (j + 3)
            = atomicChurnWriteOps data := by
          simp [atomicChurnWriteOps]
        rw [htake]
        simp only [atomicChurnWriteOps, runFileOps, List.foldl_cons,
          List.foldl_nil]
        rw [show applyFileOp (applyFileOp init (FileOp.create "churn.tmp"))
            (FileOp.writeAll "churn.tmp" data)
          = setFile (setFile init "churn.tmp" "") "churn.tmp" data from rfl]
        rw [show applyFileOp (setFile (setFile init "churn.tmp" "")
              "churn.tmp" data) (FileOp.rename "churn.tmp" "churn.txt")
          = dropFile (setFile (setFile (setFile init "churn.tmp" "")
              "churn.tmp" data) "churn.txt" data) "churn.tmp" from by
            simp [applyFileOp, getFile_setFile_self]]
        rw [getFile_dropFile_ne _ hne, getFile_setFile_self]

/-! ## Request retry (`send_request`, src/src/lightarti.rs:49-96)

`send_request_attempt` opens a Tor stream, performs the TLS handshake,
writes the request, flushes, and reads to EOF; its result for attempt
`i` is summarized by `outcomes i`, tagged with the step that failed.
`send_request` runs

    for retry in 0..5 { match send_request_attempt(..).await {
        Err(error) => debug!(..), v => return v } }
    Err(anyhow!("Couldn't get response"))

so any error — the TLS handshake included — falls through to the next
iteration.
-/

/-- The step of `send_request_attempt` at which an attempt failed. -/
inductive AttemptError where
  | torConnect
  | tlsConnect
  | writeRequest
  | flushStream
  | readResponse
  deriving DecidableEq, Repr

/-- The loop body of `send_request`: `fuel` iterations remain, `i` is
the current attempt index. -/
def sendRequestGo (outcomes : Nat → Except AttemptError String)
    (fuel i : Nat) : Except String String :=
  match fuel with
  | 0 => .error "Couldn't get response"
  | fuel + 1 =>
      match outcomes i with
      | .ok v => .ok v
      | .error _ => sendRequestGo outcomes fuel (i + 1)

/-- `send_request` (src/src/lightarti.rs:49-62). -/
def sendRequest (outcomes : Nat → Except AttemptError String) :
    Except String String :=
  sendRequestGo outcomes 5 0

/-- Number of attempts the loop performs before returning. -/
def attemptsMadeGo (outcomes : Nat → Except AttemptError String)
    (fuel i : Nat) : Nat :=
  match fuel with
  | 0 => 0
  | fuel + 1 =>
      match outcomes i with
      | .ok _ => 1
      | .error _ => 1 + attemptsMadeGo outcomes fuel (i + 1)

/-- Number of `send_request_attempt` calls a `send_request` run makes. -/
def attemptsMade (outcomes : Nat → Except AttemptError String) : Nat :=
  attemptsMadeGo outcomes 5 0

theorem sendRequestGo_succ_error
    {outcomes : Nat → Except AttemptError String} {i : Nat}
    {e : AttemptError} (fuel : Nat) (he : outcomes i = .error e) :
    sendRequestGo outcomes (fuel + 1) i
      = sendRequestGo outcomes fuel (i + 1) := by
  simp only [sendRequestGo]; rw [he]

theorem sendRequestGo_succ_ok
    {outcomes : Nat → Except AttemptError String} {i : Nat}
    {v : String} (fuel : Nat) (he : outcomes i = .ok v) :
    sendRequestGo outcomes (fuel + 1) i = .ok v := by
  simp only [sendRequestGo]; rw [he]

theorem attemptsMadeGo_succ_error
    {outcomes : Nat → Except AttemptError String} {i : Nat}
    {e : AttemptError} (fuel : Nat) (he : outcomes i = .error e) :
    attemptsMadeGo outcomes (fuel + 1) i
      = 1 + attemptsMadeGo outcomes fuel (i + 1) := by
  simp only [attemptsMadeGo]; rw [he]

theorem attemptsMadeGo_succ_ok
    {outcomes : Nat → Except AttemptError String} {i : Nat}
    {v : String} (fuel : Nat) (he : outcomes i = .ok v) :
    attemptsMadeGo outcomes (fuel + 1) i = 1 := by
  simp only [attemptsMadeGo]; rw [he]

theorem attemptsMadeGo_le (outcomes : Nat → Except AttemptError String)
    (fuel : Nat) : ∀ i, attemptsMadeGo outcomes fuel i ≤ fuel := by
  induction fuel with
  | zero => intro i; exact Nat.le_refl 0
  | succ fuel ih =>
      intro i
      cases ho : outcomes i with
      | ok v => rw [attemptsMadeGo_succ_ok fuel ho]; omega
      | error e =>
          rw [attemptsMadeGo_succ_error fuel ho]
          have := ih (i + 1); omega

theorem attemptsMadeGo_pos (outcomes : Nat → Except AttemptError String)
    (fuel i : Nat) : 1 ≤ attemptsMadeGo outcomes (fuel + 1) i := by
  cases ho : outcomes i with
  | ok v => rw [attemptsMadeGo_succ_ok fuel ho]
  | error e =>
      rw [attemptsMadeGo_succ_error fuel ho]
      omega

theorem sendRequestGo_all_fail (outcomes : Nat → Except AttemptError String)
    (fuel : Nat) :
    ∀ i, (∀ j, j < fuel → ∃ e, outcomes (i + j) = .error e) →
    sendRequestGo outcomes fuel i = .error "Couldn't get response" := by
  induction fuel with
  | zero => intro i _; rfl
  | succ fuel ih =>
      intro i h
      obtain ⟨e, he⟩ := h 0 (Nat.succ_pos fuel)
      rw [show i + 0 = i from rfl] at he
      rw [sendRequestGo_succ_error fuel he]
      exact ih (i + 1) fun j hj => by
        obtain ⟨e2, he2⟩ := h (j + 1) (Nat.succ_lt_succ hj)
        exact ⟨e2, by rw [show i + 1 + j = i + (j + 1) by omega]; exact he2⟩

theorem sendRequestGo_error (outcomes : Nat → Except AttemptError String)
    (fuel : Nat) :
    ∀ i e, sendRequestGo outcomes fuel i = .error e →
    e = "Couldn't get response" := by
  induction fuel with
  | zero => intro i e h; exact (Except.error.inj h).symm
  | succ fuel ih =>
      intro i e h
      cases ho : outcomes i with
      | ok v => rw [sendRequestGo_succ_ok fuel ho] at h; cases h
      | error e2 =>
          rw [sendRequestGo_succ_error fuel ho] at h
          exact ih (i + 1) e h

theorem attemptsMadeGo_ge (outcomes : Nat → Except AttemptError String) :
    ∀ (k fuel i : Nat), k + 1 < fuel →
    (∀ j, j ≤ k → ∃ e, outcomes (i + j) = .error e) →
    k + 2 ≤ attemptsMadeGo outcomes fuel i := by
  intro k
  induction k with
  | zero =>
      intro fuel i hf h
      obtain ⟨e, he⟩ := h 0 (Nat.le_refl 0)
      rw [show i + 0 = i from rfl] at he
      match fuel, hf with
      | fuel + 2, _ =>
          rw [attemptsMadeGo_succ_error (fuel + 1) he]
          have := attemptsMadeGo_pos outcomes fuel (i + 1)
          omega
  | succ k ih =>
      intro fuel i hf h
      obtain ⟨e, he⟩ := h 0 (Nat.zero_le _)
      rw [show i + 0 = i from rfl] at he
      match fuel, hf with
      | fuel + 1, hf =>
          rw [attemptsMadeGo_succ_error fuel he]
          have := ih fuel (i + 1) (by omega) fun j hj => by
            obtain ⟨e2, he2⟩ := h (j + 1) (Nat.succ_le_succ hj)
            exact ⟨e2, by rw [show i + 1 + j = i + (j + 1) by omega]; exact he2⟩
          omega

/-- C4, counterexample: an attempt sequence whose first attempt fails in
the TLS handshake and whose second succeeds.  `send_request` returns the
second attempt's page after making two attempts — the TLS handshake
failure was retried, contradicting the claim that it never is. -/
theorem send_request_tls_retried :
    (fun i => if i = 0 then Except.error AttemptError.tlsConnect
        else Except.ok "page") 0 = Except.error AttemptError.tlsConnect
    ∧ sendRequest (fun i => if i = 0 then Except.error AttemptError.tlsConnect
        else Except.ok "page") = Except.ok "page"
    ∧ attemptsMade (fun i => if i = 0 then Except.error AttemptError.tlsConnect
        else Except.ok "page") = 2 := by
  refine ⟨rfl, rfl, rfl⟩

/-- C4, amended: the raw send is attempted at most 5 times on any
stream-level failure — a TLS handshake failure is retried like any
other error — and when all 5 attempts fail the only surfaced error is
"Couldn't get response" (the spec's `NoResponse`).  Any failure on one
of the first four attempts, whatever its step, is followed by a further
attempt. -/
theorem send_request_retry_policy (outcomes : Nat → Except AttemptError String) :
    attemptsMade outcomes ≤ 5
    ∧ ((∀ i, i < 5 → ∃ e, outcomes i = .error e) →
        sendRequest outcomes = .error "Couldn't get response")
    ∧ (∀ e, sendRequest outcomes = .error e → e = "Couldn't get response")
    ∧ (∀ k, k + 1 < 5 → (∀ j, j ≤ k → ∃ e, outcomes j = .error e) →
        k + 2 ≤ attemptsMade outcomes) := by
  refine ⟨attemptsMadeGo_le outcomes 5 0, fun h => ?_, fun e h => ?_,
    fun k hk h => ?_⟩
  · exact sendRequestGo_all_fail outcomes 5 0 fun j hj => by
      simpa using h j hj
  · exact sendRequestGo_error outcomes 5 0 e h
  · exact attemptsMadeGo_ge outcomes k 5 0 hk fun j hj => by
      simpa using h j hj

/-- C4 witness: all five attempts failing in the Tor connect surfaces
"Couldn't get response" after exactly 5 attempts. -/
theorem send_request_retry_policy_witness :
    sendRequest (fun _ => Except.error AttemptError.torConnect)
      = Except.error "Couldn't get response"
    ∧ attemptsMade (fun _ => Except.error AttemptError.torConnect) ≤ 5
    ∧ 5 ≤ attemptsMade (fun _ => Except.error AttemptError.torConnect) :=
  ⟨(send_request_retry_policy _).2.1 (fun i _ => ⟨AttemptError.torConnect, rfl⟩),
    (send_request_retry_policy _).1,
    (send_request_retry_policy _).2.2.2 3 (by omega)
      (fun j _ => ⟨AttemptError.torConnect, rfl⟩)⟩

/-! ## Churn pruning (`load_consensus`, src/src/flatfiledirmgr.rs:200-224)

    let churn_threshold = unvalidated.n_relays() / CHURN_FRACTION;
    let churn_set: HashSet<&RsaIdentity> = if churn.len() > churn_threshold {
        warn!("Churn larger than threshold limit!");
        let number_to_remove = churn.len() - churn_threshold;
        churn.choose_multiple(&mut rand::thread_rng(),
                              churn.len() - number_to_remove).collect()
    } else { churn.iter().collect() };
    if churn_set.is_empty() { .. } else {
        unvalidated.modify_relays(|relays|
            relays.retain(|r| !churn_set.contains(r.rsa_identity())));
    }

The random draw is modelled by an explicit `sample` parameter;
`choose_multiple(rng, k)` guarantees a draw of `min(k, len)` distinct
positions, so the sample is a duplicate-free (when the churn list is)
selection from `churn` of the computed length, which is all the proofs
assume about it.  Collecting into a `HashSet` is `List.toFinset`.
-/

/-- `CHURN_FRACTION` (src/src/flatfiledirmgr.rs:32). -/
def churnFraction : Nat := 6

/-- `churn_threshold = n_relays / CHURN_FRACTION`. -/
def churnThreshold (nRelays : Nat) : Nat :=
  nRelays / churnFraction

/-- The sample size the code requests, in its two-step form:
`churn.len() - number_to_remove` with
`number_to_remove = churn.len() - churn_threshold`. -/
def sampleAmount (churnLen t : Nat) : Nat :=
  churnLen - (churnLen - t)

/-- The `churn_set` the code builds: the sample when the churn list
exceeds the threshold, the whole churn list otherwise, collected into a
hash set. -/
def churnSet (churn sample : List RsaId) (nRelays : Nat) : Finset RsaId :=
  if churn.length > churnThreshold nRelays then sample.toFinset
  else churn.toFinset

/-- Whether the "Churn larger than threshold limit!" warning fires. -/
def churnWarning (churn : List RsaId) (nRelays : Nat) : Bool :=
  churn.length > churnThreshold nRelays

/-- The `modify_relays`/`retain` step, skipped when the churn set is
empty (with identical effect). -/
def pruneRelays (relays : List RsaId) (cs : Finset RsaId) : List RsaId :=
  if cs = ∅ then relays else relays.filter (fun r => r ∉ cs)

/-- C1, counterexample: the claim quantifies over every churn list, but
for the duplicated churn list [z, z] (z a 20-byte identity) against a
12-relay consensus (threshold 2) the hash set collapses the duplicates:
the effective churn subset has size 1, not min(|churn|, ⌊relays/6⌋) = 2. -/
theorem churn_subset_size_counterexample :
    (churnSet [List.replicate 20 0, List.replicate 20 0] [] 12).card = 1
    ∧ min ([List.replicate 20 0, List.replicate 20 0] : List RsaId).length
        (churnThreshold 12) = 2
    ∧ (1 : Nat) ≠ 2 := by
  decide

/-- C1, amended: for duplicate-free churn lists, with
T = ⌊n_relays/6⌋ and the sample a without-replacement draw from the
churn list of the size the code computes: if |churn| ≤ T the pruning
removes exactly the churned relays; if |churn| > T the removed set is a
subset of the churn of size exactly T and the over-threshold warning
fires; in either case the effective churn subset size is
min(|churn|, T).  (With duplicate entries the hash set collapses them,
and the subset can be smaller.) -/
theorem churn_pruning_policy (relays churn sample : List RsaId)
    (hnd : churn.Nodup) (hsnd : sample.Nodup)
    (hsub : ∀ x ∈ sample, x ∈ churn)
    (hlen : sample.length
      = sampleAmount churn.length (churnThreshold relays.length)) :
    (churnSet churn sample relays.length).card
      = min churn.length (churnThreshold relays.length)
    ∧ pruneRelays relays (churnSet churn sample relays.length)
      = relays.filter (fun r => r ∉ churnSet churn sample relays.length)
    ∧ (churn.length ≤ churnThreshold relays.length →
        pruneRelays relays (churnSet churn sample relays.length)
          = relays.filter (fun r => r ∉ churn.toFinset))
    ∧ (churn.length > churnThreshold relays.length →
        churnSet churn sample relays.length ⊆ churn.toFinset
        ∧ (churnSet churn sample relays.length).card
          = churnThreshold relays.length)
    ∧ (churnWarning churn relays.length = true
        ↔ churn.length > churnThreshold relays.length) := by
  have hfilter : ∀ cs : Finset RsaId,
      pruneRelays relays cs = relays.filter (fun r => r ∉ cs) := by
    intro cs
    unfold pruneRelays
    by_cases hcs : cs = ∅
    · subst hcs; simp
    · simp [hcs]
  refine ⟨?_, hfilter _, fun hle => ?_, fun hgt => ?_, ?_⟩
  · unfold churnSet
    by_cases hgt : churn.length > churnThreshold relays.length
    · rw [if_pos hgt, List.toFinset_card_of_nodup hsnd, hlen]
      unfold sampleAmount
      omega
    · rw [if_neg hgt, List.toFinset_card_of_nodup hnd]
      omega
  · rw [hfilter _]
    unfold churnSet
    rw [if_neg (by omega)]
  · unfold churnSet
    rw [if_pos hgt]
    refine ⟨fun x hx => ?_, ?_⟩
    · rw [List.mem_toFinset] at hx ⊢
      exact hsub x hx
    · rw [List.toFinset_card_of_nodup hsnd, hlen]
      unfold sampleAmount
      omega
  · unfold churnWarning
    simp

/-- C1 witness: a 12-relay consensus, a 3-element duplicate-free churn
list (over the threshold 2), and a 2-element sample. -/
theorem churn_pruning_policy_witness :
    (churnSet [List.replicate 20 1, List.replicate 20 2, List.replicate 20 3]
        [List.replicate 20 1, List.replicate 20 2]
        ((List.range 12).map fun k => List.replicate 20 k).length).card
      = min ([List.replicate 20 1, List.replicate 20 2,
          List.replicate 20 3] : List RsaId).length
        (churnThreshold ((List.range 12).map
          fun k => List.replicate 20 k).length) :=
  (churn_pruning_policy ((List.range 12).map fun k => List.replicate 20 k)
    [List.replicate 20 1, List.replicate 20 2, List.replicate 20 3]
    [List.replicate 20 1, List.replicate 20 2]
    (by decide) (by decide) (by decide) (by decide)).1

/-! ## Directory loading (`load_directory`, src/src/flatfiledirmgr.rs:109-176)

`load_directory` runs `check_directory`, `load_consensus` (including
the churn pruning above), the authority check, `load_certificate`, the
consensus signature check, and `load_microdesc`; it then assembles a
`PartialNetDir`, replaces the published directory only when
`unwrap_if_sufficient` and the circuit manager's
`netdir_is_sufficient` both succeed, and finally emits
`NewConsensus` then `NewDescriptors` when a directory is published
(`postage::broadcast` sends to the live channel never fail, so the
`map_err(.. DirectoryNotPresent)` arms are dead).  The document parsers
and cryptographic checks live in external crates and are abstracted as
an environment; the control flow, error mapping, event emission, and
publication logic are the embedded repository code.
-/

/-- A parsed authority certificate (contents irrelevant to the claims). -/
abbrev AuthCertModel := Nat

/-- A microdescriptor (contents irrelevant to the claims). -/
abbrev MicrodescModel := Nat

/-- The assembled network directory: consensus relays joined with
their microdescriptors. -/
structure NetDirModel where
  relays : List RsaId
  microdescs : List MicrodescModel
  deriving DecidableEq, Repr

/-- The external collaborators of `load_directory` (tor-netdoc
parsers, tor-checkable validity checks, the RNG draw, tor-netdir
sufficiency, tor-circmgr acceptance), left abstract: the theorems hold
for every behaviour of these. -/
structure LoadEnv where
  /-- `MdConsensus::parse`: the rows' RSA identities, `none` on
  syntax error -/
  parseConsensus : String → Option (List RsaId)
  /-- `check_valid_now()` on the parsed consensus -/
  timely : List RsaId → Bool
  /-- the `choose_multiple` draw from the churn list at the given
  amount -/
  sample : List RsaId → Nat → List RsaId
  /-- `unvalidated.authorities_are_correct(..)` -/
  authOk : List RsaId → Bool
  /-- `AuthCert::parse`: `none` on syntax error -/
  parseCert : String → Option AuthCertModel
  /-- `check_signature()` on the parsed certificate -/
  certSigOk : AuthCertModel → Bool
  /-- `check_valid_now()` on the certificate -/
  certTimely : AuthCertModel → Bool
  /-- `unvalidated.check_signature(&[certificate])` -/
  checkSig : List RsaId → AuthCertModel → Bool
  /-- `MicrodescReader` with annotations rejected, malformed entries
  already skipped by `flatten()` -/
  parseMicrodescs : String → List MicrodescModel
  /-- `PartialNetDir::unwrap_if_sufficient` succeeding -/
  sufficient : List RsaId → List MicrodescModel → Bool
  /-- `circmgr.netdir_is_sufficient(&netdir)` -/
  circmgrSufficient : List RsaId → List MicrodescModel → Bool

/-- `FlatFileDirMgr::load_consensus`
(src/src/flatfiledirmgr.rs:178-227): read the consensus file (read
failure mapped to `UnrecognizedAuthorities`), read the churn file with
`unwrap_or_else(|_| "".to_string())`, parse, check validity, parse the
churn, and prune a bounded churn subset off the relay list. -/
def loadConsensus (env : LoadEnv) (fs : CacheDir) :
    Except DirError (List RsaId) :=
  match fs.read .consensus with
  | Option.none => .error .unrecognizedAuthorities
  | some ctext =>
      let churnText := (fs.read .churn).getD ""
      match env.parseConsensus ctext with
      | Option.none => .error (.cacheCorruption "Failed to parse consensus")
      | some doc =>
          if env.timely doc = false then .error .untimelyObject
          else
            match parseChurn churnText with
            | .error e => .error e
            | .ok churn =>
                .ok (pruneRelays doc
                  (churnSet churn
                    (env.sample churn
                      (sampleAmount churn.length (churnThreshold doc.length)))
                    doc.length))

/-- `FlatFileDirMgr::load_certificate`
(src/src/flatfiledirmgr.rs:229-244). -/
def loadCertificate (env : LoadEnv) (fs : CacheDir) :
    Except DirError AuthCertModel :=
  match fs.read .certificate with
  | Option.none => .error .unrecognizedAuthorities
  | some text =>
      match env.parseCert text with
      | Option.none => .error (.cacheCorruption "Failed to parse certificate")
      | some cert =>
          if env.certSigOk cert = false then .error .certSignature
          else if env.certTimely cert = false then .error .untimelyObject
          else .ok cert

/-- `FlatFileDirMgr::load_microdesc`
(src/src/flatfiledirmgr.rs:246-262). -/
def loadMicrodesc (env : LoadEnv) (fs : CacheDir) :
    Except DirError (List MicrodescModel) :=
  match fs.read .microdescriptors with
  | Option.none => .error .unrecognizedAuthorities
  | some text => .ok (env.parseMicrodescs text)

/-- The fallible part of `load_directory`
(src/src/flatfiledirmgr.rs:109-159), up to and including the decision
whether a newly assembled directory is published: `.ok (some d)` means
`self.netdir.replace(d)` ran, `.ok none` means the assembly was
insufficient (or the circuit manager refused it) and nothing was
replaced. -/
def loadDirectoryAux (env : LoadEnv) (fs : CacheDir) :
    Except DirError (Option NetDirModel) :=
  match checkDirectory fs with
  | .error e => .error e
  | .ok _ =>
      match loadConsensus env fs with
      | .error e => .error e
      | .ok doc =>
          if env.authOk doc = false then .error .unrecognizedAuthorities
          else
            match loadCertificate env fs with
            | .error e => .error e
            | .ok cert =>
                if env.checkSig doc cert = false then
                  .error (.cacheCorruption "Failed to validate consensus signature")
                else
                  match loadMicrodesc env fs with
                  | .error e => .error e
                  | .ok mds =>
                      .ok (if env.sufficient doc mds then
                            if env.circmgrSufficient doc mds then
                              some ⟨doc, mds⟩
                            else Option.none
                          else Option.none)

/-- Result of one `load_directory` call: the returned value, the
events sent on `tx_events` in order, and the published-directory slot
afterwards. -/
structure LoadResult where
  res : Except DirError Bool
  events : List DirEvent
  netdir : Option NetDirModel
  deriving DecidableEq, Repr

/-- `FlatFileDirMgr::load_directory` against a current published
directory `prev`: on an error nothing is replaced and nothing sent; on
success the final `match self.netdir.get()` sends `NewConsensus` then
`NewDescriptors` when a directory (new or previous) is published, and
returns whether one is. -/
def loadDirectory (env : LoadEnv) (fs : CacheDir)
    (prev : Option NetDirModel) : LoadResult :=
  match loadDirectoryAux env fs with
  | .error e => ⟨.error e, [], prev⟩
  | .ok newOpt =>
      match (match newOpt with
        | some d => some d
        | Option.none => prev) with
      | some d => ⟨.ok true, [.newConsensus, .newDescriptors], some d⟩
      | Option.none => ⟨.ok false, [], Option.none⟩

/-- `NetDirProvider::netdir` for `FlatFileDirMgr`
(src/src/flatfiledirmgr.rs:291-294): the published directory or
`tor_netdir::Error::NoInfo`. -/
def netdirQuery (published : Option NetDirModel) : Except Unit NetDirModel :=
  match published with
  | some d => .ok d
  | Option.none => .error ()

/-- A sequence of `load_directory` calls run to completion one after
the other on the single-threaded executor, threading the published
directory and concatenating the event streams. -/
def runLoads (env : LoadEnv) (fss : List CacheDir)
    (prev : Option NetDirModel) : List DirEvent × Option NetDirModel :=
  match fss with
  | [] => ([], prev)
  | fs :: rest =>
      let r := loadDirectory env fs prev
      let rec2 := runLoads env rest r.netdir
      (r.events ++ rec2.1, rec2.2)

/-- The trivial instantiation of the external collaborators: empty
consensus parsing successfully, all checks passing. -/
def trivialEnv : LoadEnv where
  parseConsensus := fun _ => some []
  timely := fun _ => true
  sample := fun c n => c.take n
  authOk := fun _ => true
  parseCert := fun _ => some 0
  certSigOk := fun _ => true
  certTimely := fun _ => true
  checkSig := fun _ _ => true
  parseMicrodescs := fun _ => []
  sufficient := fun _ _ => true
  circmgrSufficient := fun _ _ => true

/-- A cache directory with all five files present and empty. -/
def fullCache : CacheDir :=
  ⟨true, some ⟨"", 0⟩, some ⟨"", 0⟩, some ⟨"", 0⟩, some ⟨"", 0⟩,
    some ⟨"", 0⟩⟩

/-- `fullCache` with `churn.txt` removed. -/
def noChurnCache : CacheDir :=
  { fullCache with churn := Option.none }

/-- C3, counterexample: with the four other files present, deleting
`churn.txt` makes `load_directory` fail with
`CacheCorruption("required files missing in cache")` (via
`check_directory`), while the same cache with an empty `churn.txt`
loads successfully — so an absent churn file does *not* behave like an
empty one for directory loading. -/
theorem load_directory_missing_churn_counterexample :
    loadDirectory trivialEnv noChurnCache Option.none
      = ⟨.error (.cacheCorruption "required files missing in cache"), [],
          Option.none⟩
    ∧ (loadDirectory trivialEnv fullCache Option.none).res = .ok true
    ∧ loadDirectory trivialEnv noChurnCache Option.none
      ≠ loadDirectory trivialEnv fullCache Option.none := by
  decide

/-- C3, amended: inside `load_consensus` an unreadable churn file is
indeed read as empty content (`unwrap_or_else`), but directory loading
as a whole first runs `check_directory`, which requires `churn.txt` to
exist; with it absent, `load_directory` fails with
`CacheCorruption("required files missing in cache")` instead of
behaving like an empty churn list. -/
theorem load_directory_missing_churn (env : LoadEnv) (fs : CacheDir)
    (prev : Option NetDirModel) :
    (fs.present .churn = false →
      loadDirectory env fs prev
        = ⟨.error (.cacheCorruption "required files missing in cache"), [],
            prev⟩)
    ∧ (fs.read .churn = Option.none →
      loadConsensus env fs
        = loadConsensus env { fs with churn := some ⟨"", 0⟩ }) := by
  constructor
  · intro h
    have hall : requiredFiles.all fs.present = false := by
      simp [requiredFiles, List.all_cons, List.all_nil, h]
    have hcd : checkDirectory fs
        = .error (.cacheCorruption "required files missing in cache") := by
      unfold checkDirectory
      rw [hall]
      rfl
    simp [loadDirectory, loadDirectoryAux, hcd]
  · intro h
    by_cases hd : fs.dirExists = true
    · have hch : fs.churn = Option.none := by
        simpa [CacheDir.read, CacheDir.file, hd] using h
      simp [loadConsensus, CacheDir.read, CacheDir.file, hd, hch]
    · have hd' : fs.dirExists = false := by simpa using hd
      simp [loadConsensus, CacheDir.read, hd']

/-- C3 witness: the amended behaviour at the concrete cache with the
churn file absent. -/
theorem load_directory_missing_churn_witness :
    loadDirectory trivialEnv noChurnCache Option.none
      = ⟨.error (.cacheCorruption "required files missing in cache"), [],
          Option.none⟩
    ∧ loadConsensus trivialEnv noChurnCache
      = loadConsensus trivialEnv { noChurnCache with churn := some ⟨"", 0⟩ } :=
  ⟨(load_directory_missing_churn trivialEnv noChurnCache Option.none).1
      (by decide),
    (load_directory_missing_churn trivialEnv noChurnCache Option.none).2
      (by decide)⟩

/-- The events a single `load_directory` call sends: none, or exactly
the `NewConsensus`, `NewDescriptors` pair. -/
theorem loadDirectory_events_shape (env : LoadEnv) (fs : CacheDir)
    (prev : Option NetDirModel) :
    (loadDirectory env fs prev).events = []
    ∨ (loadDirectory env fs prev).events
      = [DirEvent.newConsensus, DirEvent.newDescriptors] := by
  cases haux : loadDirectoryAux env fs with
  | error e => simp [loadDirectory, haux]
  | ok newOpt =>
      cases newOpt with
      | some d => simp [loadDirectory, haux]
      | none =>
          cases prev with
          | some p => simp [loadDirectory, haux]
          | none => simp [loadDirectory, haux]

/-- C9: a load that returns `Ok(true)` (a directory is published)
sends exactly one `NewConsensus` followed by exactly one
`NewDescriptors`; a load that returns an error — signature
verification and every earlier step included — or `Ok(false)` sends no
events; and for any sequence of loads run one after the other on the
single-threaded executor, the observed event stream is the
concatenation of per-load segments, each empty or exactly the ordered
pair, so the pair is never reversed and never interleaves with
another load. -/
theorem load_directory_events (env : LoadEnv) :
    (∀ fs prev,
      ((loadDirectory env fs prev).res = .ok true →
        (loadDirectory env fs prev).events
          = [DirEvent.newConsensus, DirEvent.newDescriptors])
      ∧ (∀ e, (loadDirectory env fs prev).res = .error e →
        (loadDirectory env fs prev).events = [])
      ∧ ((loadDirectory env fs prev).res = .ok false →
        (loadDirectory env fs prev).events = []))
    ∧ (∀ fss prev, ∃ segs : List (List DirEvent),
        (runLoads env fss prev).1 = segs.flatten
        ∧ segs.length = fss.length
        ∧ ∀ s ∈ segs,
            s = [] ∨ s = [DirEvent.newConsensus, DirEvent.newDescriptors]) := by
  constructor
  · intro fs prev
    cases haux : loadDirectoryAux env fs with
    | error e => simp [loadDirectory, haux]
    | ok newOpt =>
        cases newOpt with
        | some d => simp [loadDirectory, haux]
        | none =>
            cases prev with
            | some p => simp [loadDirectory, haux]
            | none => simp [loadDirectory, haux]
  · intro fss
    induction fss with
    | nil => exact fun prev => ⟨[], by simp [runLoads], rfl, by simp⟩
    | cons fs rest ih =>
        intro prev
        obtain ⟨segs, h1, h2, h3⟩ := ih (loadDirectory env fs prev).netdir
        refine ⟨(loadDirectory env fs prev).events :: segs, ?_, ?_, ?_⟩
        · simp [runLoads, h1]
        · simp [h2]
        · intro s hs
          rcases List.mem_cons.1 hs with rfl | hs
          · exact loadDirectory_events_shape env fs prev
          · exact h3 s hs

/-- C9 witness: the trivial full-cache load publishes a directory and
sends the ordered pair. -/
theorem load_directory_events_witness :
    (loadDirectory trivialEnv fullCache Option.none).events
      = [DirEvent.newConsensus, DirEvent.newDescriptors] :=
  ((load_directory_events trivialEnv).1 fullCache Option.none).1 (by decide)

/-- Publication inversion: `load_directory` replaced the directory
slot only when both sufficiency checks succeeded. -/
theorem loadDirectoryAux_ok_some (env : LoadEnv) (fs : CacheDir)
    (d : NetDirModel) (h : loadDirectoryAux env fs = .ok (some d)) :
    env.sufficient d.relays d.microdescs = true
    ∧ env.circmgrSufficient d.relays d.microdescs = true := by
  cases h1 : checkDirectory fs with
  | error e => simp [loadDirectoryAux, h1] at h
  | ok u =>
      cases h2 : loadConsensus env fs with
      | error e => simp [loadDirectoryAux, h1, h2] at h
      | ok doc =>
          by_cases hauth : env.authOk doc = false
          · simp [loadDirectoryAux, h1, h2, hauth] at h
          · cases h3 : loadCertificate env fs with
            | error e => simp [loadDirectoryAux, h1, h2, hauth, h3] at h
            | ok cert =>
                by_cases hsig : env.checkSig doc cert = false
                · simp [loadDirectoryAux, h1, h2, hauth, h3, hsig] at h
                · cases h4 : loadMicrodesc env fs with
                  | error e =>
                      simp [loadDirectoryAux, h1, h2, hauth, h3, hsig, h4] at h
                  | ok mds =>
                      simp only [loadDirectoryAux, h1, h2, hauth, h3, hsig, h4,
                        if_false, if_neg, Except.ok.injEq] at h
                      by_cases hsuf : env.sufficient doc mds = true
                      · by_cases hcirc : env.circmgrSufficient doc mds = true
                        · simp only [hsuf, hcirc, if_true] at h
                          obtain rfl : NetDirModel.mk doc mds = d := by
                            simpa using h
                          exact ⟨hsuf, hcirc⟩
                        · simp [hsuf, hcirc] at h
                      · simp [hsuf] at h

/-- C10: the published directory is only ever replaced by one that
passed both sufficiency checks; on an error, and equally on an
insufficient (or circuit-manager-rejected) assembly, the previously
published directory is left unchanged and `netdir()` still answers
with it. -/
theorem load_directory_publish_invariant (env : LoadEnv) (fs : CacheDir)
    (prev : Option NetDirModel) :
    (∀ e, (loadDirectory env fs prev).res = .error e →
      (loadDirectory env fs prev).netdir = prev
      ∧ netdirQuery (loadDirectory env fs prev).netdir = netdirQuery prev)
    ∧ (loadDirectoryAux env fs = .ok Option.none →
      (loadDirectory env fs prev).netdir = prev
      ∧ netdirQuery (loadDirectory env fs prev).netdir = netdirQuery prev)
    ∧ ((loadDirectory env fs prev).netdir ≠ prev →
      ∃ d, loadDirectoryAux env fs = .ok (some d)
        ∧ (loadDirectory env fs prev).netdir = some d
        ∧ env.sufficient d.relays d.microdescs = true
        ∧ env.circmgrSufficient d.relays d.microdescs = true) := by
  cases haux : loadDirectoryAux env fs with
  | error e2 =>
      refine ⟨fun e he => by simp [loadDirectory, haux], ?_, ?_⟩
      · intro hnone; simp at hnone
      · intro hne; exact absurd (by simp [loadDirectory, haux]) hne
  | ok newOpt =>
      cases newOpt with
      | some d =>
          refine ⟨fun e he => ?_, ?_, fun hne => ?_⟩
          · rw [show (loadDirectory env fs prev).res = .ok true from by
              simp [loadDirectory, haux]] at he
            cases he
          · intro hnone; simp at hnone
          · exact ⟨d, rfl, by simp [loadDirectory, haux],
              loadDirectoryAux_ok_some env fs d haux⟩
      | none =>
          have hnd : (loadDirectory env fs prev).netdir = prev := by
            cases prev with
            | some p => simp [loadDirectory, haux]
            | none => simp [loadDirectory, haux]
          refine ⟨fun e he => ⟨hnd, by rw [hnd]⟩, fun _ => ⟨hnd, by rw [hnd]⟩,
            fun hne => absurd hnd hne⟩

/-- C10 witness: the trivial full-cache load against an empty slot
publishes a directory that passed both sufficiency checks. -/
theorem load_directory_publish_invariant_witness :
    ∃ d, loadDirectoryAux trivialEnv fullCache = .ok (some d)
      ∧ (loadDirectory trivialEnv fullCache Option.none).netdir = some d
      ∧ trivialEnv.sufficient d.relays d.microdescs = true
      ∧ trivialEnv.circmgrSufficient d.relays d.microdescs = true :=
  (load_directory_publish_invariant trivialEnv fullCache Option.none).2.2
    (by decide)

/-! ## Response parsing (`raw_to_response`, src/src/http.rs:46-72)

`raw_to_response` allocates a fixed array of 16 `httparse` header
slots, calls `httparse::Response::parse`, treats a `Partial` result as
"unfinished response", and otherwise copies status, version (0 ↦
HTTP/1.0, else HTTP/1.1), headers and the remaining bytes into the
response.  The parser itself is the external `httparse` crate; it is
modelled here from its semantics: a status line `HTTP/1.<d> <code>
[reason] CRLF`, then header lines `name: value CRLF` filling the
provided slots, then an empty line; when a header line is found and no
slot remains it fails with `TooManyHeaders`.  The model accepts a
slight superset of `httparse`'s token grammar (it does not re-validate
token characters) and collapses some truncated-input cases into
`malformed`; both differences are irrelevant to the header-cap
behaviour the claim is about, which the model reproduces exactly:
slot exhaustion at the start of the 17th header line is an error, not
a truncation. -/

/-- `httparse` failure modes relevant here; `moreData` is the
`Status::Partial` outcome. -/
inductive HttpErr where
  | tooManyHeaders
  | malformed
  | moreData
  deriving DecidableEq, Repr

/-- Numeric value of an ASCII digit. -/
def parseDigit (c : Char) : Option Nat :=
  if c.isDigit then some (c.toNat - 48) else none

/-- Consume a header name up to the colon. -/
def takeName : List Char → Except HttpErr (List Char × List Char)
  | [] => .error .moreData
  | c :: rest =>
      if c = ':' then .ok ([], rest)
      else if c = '\r' ∨ c = '\n' then .error .malformed
      else
        match takeName rest with
        | .error e => .error e
        | .ok (n, r) => .ok (c :: n, r)

/-- Skip spaces and tabs after the colon, as `httparse` does. -/
def skipSpaces : List Char → List Char
  | [] => []
  | c :: rest => if c = ' ' ∨ c = '\t' then skipSpaces rest else c :: rest

/-- Consume a header value (or status reason) up to and including the
line end. -/
def takeValue : List Char → Except HttpErr (List Char × List Char)
  | [] => .error .moreData
  | c :: rest =>
      if c = '\r' then
        match rest with
        | [] => .error .moreData
        | c2 :: rest2 => if c2 = '\n' then .ok ([], rest2) else .error .malformed
      else if c = '\n' then .ok ([], rest)
      else
        match takeValue rest with
        | .error e => .error e
        | .ok (v, r) => .ok (c :: v, r)

/-- Parse the status line of a response: version digit, 3-digit code,
optional reason. -/
def parseStatus : List Char → Except HttpErr (Nat × Nat × List Char)
  | 'H' :: 'T' :: 'T' :: 'P' :: '/' :: '1' :: '.' :: v :: ' ' :: c1 :: c2
      :: c3 :: rest =>
      match parseDigit v, parseDigit c1, parseDigit c2, parseDigit c3 with
      | some dv, some d1, some d2, some d3 =>
          let code := 100 * d1 + 10 * d2 + d3
          match rest with
          | [] => .error .moreData
          | c :: rest2 =>
              if c = ' ' then
                match takeValue rest2 with
                | .error e => .error e
                | .ok (_, r) => .ok (dv, code, r)
              else if c = '\r' then
                match rest2 with
                | [] => .error .moreData
                | c2 :: rest3 =>
                    if c2 = '\n' then .ok (dv, code, rest3)
                    else .error .malformed
              else if c = '\n' then .ok (dv, code, rest2)
              else .error .malformed
      | _, _, _, _ => .error .malformed
  | _ => .error .malformed

/-- Parse header lines into at most `slots` remaining header slots,
up to and including the blank line; finding a further header line with
no slot left is the `TooManyHeaders` error. -/
def parseHeaders (slots : Nat) (cs : List Char) :
    Except HttpErr (List (List Char × List Char) × List Char) :=
  match cs with
  | [] => .error .moreData
  | c :: rest =>
      if c = '\r' then
        match rest with
        | [] => .error .moreData
        | c2 :: rest2 => if c2 = '\n' then .ok ([], rest2) else .error .malformed
      else if c = '\n' then .ok ([], rest)
      else
        match slots with
        | 0 => .error .tooManyHeaders
        | slots + 1 =>
            match takeName (c :: rest) with
            | .error e => .error e
            | .ok (name, afterColon) =>
                if name = [] then .error .malformed
                else
                  match takeValue (skipSpaces afterColon) with
                  | .error e => .error e
                  | .ok (value, rest2) =>
                      match parseHeaders slots rest2 with
                      | .error e => .error e
                      | .ok (hs, body) => .ok ((name, value) :: hs, body)

/-- The parsed pieces of a response. -/
structure ParsedResponse where
  version : Nat
  code : Nat
  headers : List (List Char × List Char)
  deriving DecidableEq, Repr

/-- `httparse::Response::parse` with `maxHeaders` slots. -/
def httparseResponse (maxHeaders : Nat) (cs : List Char) :
    Except HttpErr (ParsedResponse × List Char) :=
  match parseStatus cs with
  | .error e => .error e
  | .ok (v, code, rest) =>
      match parseHeaders maxHeaders rest with
      | .error e => .error e
      | .ok (hs, body) => .ok (⟨v, code, hs⟩, body)

/-- `MAX_HEADERS` (src/src/http.rs:47). -/
def maxHeaders : Nat := 16

/-- The response `raw_to_response` builds. -/
structure HttpResponse where
  status : Nat
  /-- true when the wire version parsed as 0, i.e. HTTP/1.0 -/
  version10 : Bool
  headers : List (List Char × List Char)
  body : List Char
  deriving DecidableEq, Repr

/-- `raw_to_response` (src/src/http.rs:46-72): parse with 16 header
slots, report a partial parse as "unfinished response" and a parse
failure as the "parse response" error, else assemble the response and
split off the body. -/
def rawToResponse (raw : List Char) : Except String HttpResponse :=
  match httparseResponse maxHeaders raw with
  | .error .moreData => .error "unfinished response"
  | .error .tooManyHeaders => .error "parse response"
  | .error .malformed => .error "parse response"
  | .ok (resp, body) => .ok ⟨resp.code, resp.version == 0, resp.headers, body⟩

/-- Header-section rendering: `name: value` and CRLF per header. -/
def renderHeader (h : List Char × List Char) : List Char :=
  h.1 ++ ':' :: ' ' :: (h.2 ++ ['\r', '\n'])

/-- Render a list of headers. -/
def renderHeaders : List (List Char × List Char) → List Char
  | [] => []
  | h :: t => renderHeader h ++ renderHeaders t

/-- Render a full response: status line, headers, blank line, body. -/
def renderResponse (v c1 c2 c3 : Char)
    (hs : List (List Char × List Char)) (body : List Char) : List Char :=
  'H' :: 'T' :: 'T' :: 'P' :: '/' :: '1' :: '.' :: v :: ' ' :: c1 :: c2
    :: c3 :: '\r' :: '\n' :: (renderHeaders hs ++ '\r' :: '\n' :: body)

/-- A rendered header that parses back to itself: non-empty name
without colon or line breaks, value without line breaks and not
starting with the whitespace the parser strips. -/
def headerWF (h : List Char × List Char) : Bool :=
  !h.1.isEmpty
    && h.1.all (fun c => c != ':' && c != '\r' && c != '\n')
    && h.2.all (fun c => c != '\r' && c != '\n')
    && ((h.2.head?.getD 'x') != ' ' && (h.2.head?.getD 'x') != '\t')

theorem takeName_append (n rest : List Char)
    (hn : ∀ c ∈ n, c ≠ ':' ∧ c ≠ '\r' ∧ c ≠ '\n') :
    takeName (n ++ ':' :: rest) = .ok (n, rest) := by
  induction n with
  | nil => simp [takeName]
  | cons c t ih =>
      obtain ⟨hc1, hc2, hc3⟩ := hn c (List.mem_cons_self c t)
      rw [List.cons_append]
      simp only [takeName]
      rw [if_neg hc1, if_neg (by simp [hc2, hc3]),
        ih fun x hx => hn x (List.mem_cons_of_mem c hx)]

theorem takeValue_append (v rest : List Char)
    (hv : ∀ c ∈ v, c ≠ '\r' ∧ c ≠ '\n') :
    takeValue (v ++ '\r' :: '\n' :: rest) = .ok (v, rest) := by
  induction v with
  | nil => simp [takeValue]
  | cons c t ih =>
      obtain ⟨hc1, hc2⟩ := hv c (List.mem_cons_self c t)
      rw [List.cons_append]
      simp only [takeValue]
      rw [if_neg hc1, if_neg hc2,
        ih fun x hx => hv x (List.mem_cons_of_mem c hx)]

theorem parseHeaders_step (s : Nat) (c : Char) (rest : List Char)
    (hc1 : ¬ c = '\r') (hc2 : ¬ c = '\n') :
    parseHeaders (s + 1) (c :: rest)
      = match takeName (c :: rest) with
        | .error e => .error e
        | .ok (name, afterColon) =>
            if name = [] then .error .malformed
            else
              match takeValue (skipSpaces afterColon) with
              | .error e => .error e
              | .ok (value, rest2) =>
                  match parseHeaders s rest2 with
                  | .error e => .error e
                  | .ok (hs, body) => .ok ((name, value) :: hs, body) := by
  simp only [parseHeaders]
  rw [if_neg hc1, if_neg hc2]

theorem parseHeaders_zero (c : Char) (rest : List Char)
    (hc1 : ¬ c = '\r') (hc2 : ¬ c = '\n') :
    parseHeaders 0 (c :: rest) = .error .tooManyHeaders := by
  simp only [parseHeaders]
  rw [if_neg hc1, if_neg hc2]

theorem headerWF_facts (h : List Char × List Char)
    (hwf : headerWF h = true) :
    h.1 ≠ []
    ∧ (∀ c ∈ h.1, c ≠ ':' ∧ c ≠ '\r' ∧ c ≠ '\n')
    ∧ (∀ c ∈ h.2, c ≠ '\r' ∧ c ≠ '\n')
    ∧ (h.2.head?.getD 'x') ≠ ' ' ∧ (h.2.head?.getD 'x') ≠ '\t' := by
  simp only [headerWF, Bool.and_eq_true, Bool.not_eq_true', List.all_eq_true,
    bne_iff_ne, ne_eq] at hwf
  refine ⟨?_, fun c hc => ⟨(hwf.1.1.2 c hc).1.1, (hwf.1.1.2 c hc).1.2,
      (hwf.1.1.2 c hc).2⟩,
    fun c hc => ⟨(hwf.1.2 c hc).1, (hwf.1.2 c hc).2⟩, hwf.2.1, hwf.2.2⟩
  intro hnil
  have := hwf.1.1.1
  rw [hnil] at this
  simp at this

theorem skipSpaces_value (value rest : List Char)
    (hhead : (value.head?.getD 'x') ≠ ' ' ∧ (value.head?.getD 'x') ≠ '\t') :
    skipSpaces (' ' :: (value ++ '\r' :: '\n' :: rest))
      = value ++ '\r' :: '\n' :: rest := by
  rw [show skipSpaces (' ' :: (value ++ '\r' :: '\n' :: rest))
      = skipSpaces (value ++ '\r' :: '\n' :: rest) from by
    simp [skipSpaces]]
  cases value with
  | nil => rfl
  | cons c t =>
      simp only [List.head?_cons, Option.getD_some] at hhead
      rw [List.cons_append]
      simp [skipSpaces, hhead.1, hhead.2]

theorem parseHeaders_cons (s : Nat) (h : List Char × List Char)
    (rest : List Char) (hwf : headerWF h = true) :
    parseHeaders (s + 1) (renderHeader h ++ rest)
      = match parseHeaders s rest with
        | .error e => .error e
        | .ok (hs, body) => .ok (h :: hs, body) := by
  obtain ⟨hne, hnall, hvall, hh1, hh2⟩ := headerWF_facts h hwf
  obtain ⟨name, value⟩ := h
  obtain ⟨c, n2, rfl⟩ := List.exists_cons_of_ne_nil hne
  obtain ⟨hc1, hc2, hc3⟩ := hnall c (List.mem_cons_self c n2)
  rw [show renderHeader (c :: n2, value) ++ rest
      = c :: (n2 ++ ':' :: (' ' :: (value ++ '\r' :: '\n' :: rest))) from by
    simp [renderHeader]]
  rw [parseHeaders_step s c _ hc2 hc3]
  rw [show c :: (n2 ++ ':' :: (' ' :: (value ++ '\r' :: '\n' :: rest)))
      = (c :: n2) ++ ':' :: (' ' :: (value ++ '\r' :: '\n' :: rest)) from rfl]
  simp only [takeName_append (c :: n2) _ hnall,
    skipSpaces_value value rest ⟨hh1, hh2⟩,
    takeValue_append value rest hvall, List.cons_ne_nil, if_false,
    reduceCtorEq, ite_false]

theorem parseHeaders_blank (s : Nat) (body : List Char) :
    parseHeaders s ('\r' :: '\n' :: body) = .ok ([], body) := by
  cases s with
  | zero => rfl
  | succ s => rfl

theorem parseHeaders_render (hs : List (List Char × List Char))
    (body : List Char) (hwf : ∀ h ∈ hs, headerWF h = true) :
    ∀ s, hs.length ≤ s →
    parseHeaders s (renderHeaders hs ++ '\r' :: '\n' :: body)
      = .ok (hs, body) := by
  induction hs with
  | nil => intro s _; simpa [renderHeaders] using parseHeaders_blank s body
  | cons h t ih =>
      intro s hle
      match s, hle with
      | s + 1, hle =>
          rw [show renderHeaders (h :: t) ++ '\r' :: '\n' :: body
              = renderHeader h ++ (renderHeaders t ++ '\r' :: '\n' :: body)
            from by simp [renderHeaders]]
          rw [parseHeaders_cons s h _ (hwf h (List.mem_cons_self h t))]
          rw [ih (fun x hx => hwf x (List.mem_cons_of_mem h hx)) s
            (by simpa using hle)]

theorem parseHeaders_overflow (hs : List (List Char × List Char))
    (body : List Char) (hwf : ∀ h ∈ hs, headerWF h = true) :
    ∀ s, s < hs.length →
    parseHeaders s (renderHeaders hs ++ '\r' :: '\n' :: body)
      = .error .tooManyHeaders := by
  induction hs with
  | nil => intro s hlt; simp at hlt
  | cons h t ih =>
      intro s hlt
      obtain ⟨hne, hnall, _, _, _⟩ :=
        headerWF_facts h (hwf h (List.mem_cons_self h t))
      cases s with
      | zero =>
          obtain ⟨name, value⟩ := h
          obtain ⟨c, n2, rfl⟩ := List.exists_cons_of_ne_nil hne
          obtain ⟨_, hc2, hc3⟩ := hnall c (List.mem_cons_self c n2)
          rw [show renderHeaders ((c :: n2, value) :: t) ++ '\r' :: '\n' :: body
              = c :: (n2 ++ ':' :: (' ' :: (value
                  ++ '\r' :: '\n' :: (renderHeaders t
                    ++ '\r' :: '\n' :: body)))) from by
            simp [renderHeaders, renderHeader]]
          exact parseHeaders_zero c _ hc2 hc3
      | succ s =>
          rw [show renderHeaders (h :: t) ++ '\r' :: '\n' :: body
              = renderHeader h ++ (renderHeaders t ++ '\r' :: '\n' :: body)
            from by simp [renderHeaders]]
          rw [parseHeaders_cons s h _ (hwf h (List.mem_cons_self h t))]
          rw [ih (fun x hx => hwf x (List.mem_cons_of_mem h hx)) s
            (by simpa using hlt)]

theorem parseStatus_render (v c1 c2 c3 : Char) (dv d1 d2 d3 : Nat)
    (rest : List Char)
    (hv : parseDigit v = some dv) (hd1 : parseDigit c1 = some d1)
    (hd2 : parseDigit c2 = some d2) (hd3 : parseDigit c3 = some d3) :
    parseStatus ('H' :: 'T' :: 'T' :: 'P' :: '/' :: '1' :: '.' :: v :: ' '
        :: c1 :: c2 :: c3 :: '\r' :: '\n' :: rest)
      = .ok (dv, 100 * d1 + 10 * d2 + d3, rest) := by
  simp [parseStatus, hv, hd1, hd2, hd3]

/-- C8, counterexample: a well-formed response carrying 17 headers is
rejected by `raw_to_response` with the "parse response" error —
`httparse` fails with `TooManyHeaders` when its 16 slots are exhausted —
while the same response with 16 headers parses fine; headers beyond the
cap are not collapsed into it. -/
theorem raw_to_response_17_headers :
    rawToResponse (renderResponse '1' '2' '0' '0'
        (List.replicate 17 (['a'], ['b'])) []) = .error "parse response"
    ∧ httparseResponse maxHeaders (renderResponse '1' '2' '0' '0'
        (List.replicate 17 (['a'], ['b'])) []) = .error .tooManyHeaders
    ∧ rawToResponse (renderResponse '1' '2' '0' '0'
        (List.replicate 16 (['a'], ['b'])) [])
      = .ok ⟨200, false, List.replicate 16 (['a'], ['b']), []⟩ := by
  decide

/-- C8, amended: response parsing accepts a status line, up to 16
headers, and a remaining body — for any well-formed response with at
most 16 headers it returns the status, version flag, headers, and
body.  A response carrying more than 16 headers is *not* handled: the
fixed 16-slot header array makes `httparse` fail with
`TooManyHeaders`, surfaced as the "parse response" error. -/
theorem raw_to_response_header_cap (v c1 c2 c3 : Char) (dv d1 d2 d3 : Nat)
    (hs : List (List Char × List Char)) (body : List Char)
    (hv : parseDigit v = some dv) (hd1 : parseDigit c1 = some d1)
    (hd2 : parseDigit c2 = some d2) (hd3 : parseDigit c3 = some d3)
    (hwf : ∀ h ∈ hs, headerWF h = true) :
    (hs.length ≤ 16 →
      rawToResponse (renderResponse v c1 c2 c3 hs body)
        = .ok ⟨100 * d1 + 10 * d2 + d3, dv == 0, hs, body⟩)
    ∧ (16 < hs.length →
      rawToResponse (renderResponse v c1 c2 c3 hs body)
        = .error "parse response"
      ∧ httparseResponse maxHeaders (renderResponse v c1 c2 c3 hs body)
        = .error .tooManyHeaders) := by
  have hstat := parseStatus_render v c1 c2 c3 dv d1 d2 d3
    (renderHeaders hs ++ '\r' :: '\n' :: body) hv hd1 hd2 hd3
  constructor
  · intro hle
    simp only [rawToResponse, httparseResponse, renderResponse, maxHeaders,
      hstat, parseHeaders_render hs body hwf 16 hle]
  · intro hgt
    have hover := parseHeaders_overflow hs body hwf 16 hgt
    constructor
    · simp only [rawToResponse, httparseResponse, renderResponse, maxHeaders,
        hstat, hover]
    · simp only [httparseResponse, renderResponse, maxHeaders, hstat, hover]

/-- C8 witness: a concrete one-header HTTP/1.0 response round-trips
through `raw_to_response`. -/
theorem raw_to_response_header_cap_witness :
    rawToResponse (renderResponse '0' '2' '0' '0'
        [(['H', 'o', 's', 't'], ['x'])] ['b'])
      = .ok ⟨200, true, [(['H', 'o', 's', 't'], ['x'])], ['b']⟩ :=
  (raw_to_response_header_cap '0' '2' '0' '0' 0 2 0 0
    [(['H', 'o', 's', 't'], ['x'])] ['b'] (by decide) (by decide)
    (by decide) (by decide) (by decide)).1 (by decide)

end Lightarti
